import Mathlib

/-!
# Verification of the conversational turn pipeline of `src/app.py`

This file shallow-embeds the pieces of `src/app.py` that the specification's
claims are about:

* the duplicate-input fingerprint guard (`main`, lines 198-204),
* the temporary-file / upload / generation / parse / append pipeline
  (`main`, lines 206-269),
* the retry wrapper `send_message_with_retry` (lines 91-105),
* the speech-synthesis adapter `text_to_audio` (lines 107-120),
* the markdown-fence stripping and JSON parsing of the model response
  (lines 230-244).

External services (the Gemini client, `gTTS`, Python's `hash`) are modelled as
oracle parameters: an `Env` value fixes the outcome every external call would
have during one pipeline invocation.  Python's `json.loads` is embedded as an
executable fuel-based JSON parser over `List Char` (`jsonLoads` below), and
Python string operations (`strip`, `startswith`, slicing) are embedded as the
corresponding `List Char` operations.
-/

set_option maxRecDepth 4000

namespace ItalianChat

/-! ## Characters and whitespace

Python's `str.strip()` and `json.loads` both treat space, tab, newline and
carriage return as whitespace (`strip()` also strips some rarer unicode
whitespace, which never occurs in the strings this program manipulates). -/

def isWs (c : Char) : Bool := c = ' ' || c = '\t' || c = '\n' || c = '\r'

/-- Drop leading whitespace, as `json.loads` does between tokens. -/
def skipWs (cs : List Char) : List Char := cs.dropWhile isWs

/-- The character `{`. -/
def lcurly : Char := Char.ofNat 123

/-- The character `}`. -/
def rcurly : Char := Char.ofNat 125

/-- The backtick character. -/
def btick : Char := Char.ofNat 96

/-- Python `str.strip()`: remove leading and trailing whitespace. -/
def stripL (cs : List Char) : List Char :=
  ((cs.dropWhile isWs).reverse.dropWhile isWs).reverse

/-- Python slicing `s[:-n]` for `n ≤ len s`: drop the last `n` characters. -/
def dropRightL (n : Nat) (cs : List Char) : List Char := cs.take (cs.length - n)

/-! ## JSON values

The result type of the embedded `json.loads`.  Numbers keep their source
lexeme: the pipeline never computes with a numeric field, it only stores the
parsed value into a chat turn, so the float/int normalisation Python performs
is irrelevant to every claim. -/

inductive JVal : Type where
  | null : JVal
  | bool (b : Bool) : JVal
  | num (raw : String) : JVal
  | str (s : String) : JVal
  | arr (elems : List JVal) : JVal
  | obj (fields : List (String × JVal)) : JVal

/-! ## String bodies -/

def isHexDig (c : Char) : Bool :=
  c.isDigit || ('a' ≤ c && c ≤ 'f') || ('A' ≤ c && c ≤ 'F')

def hexVal (c : Char) : Nat :=
  if c.isDigit then c.toNat - 48
  else if 'a' ≤ c && c ≤ 'f' then c.toNat - 87
  else c.toNat - 55

/-- The JSON escape table of `json.loads`. -/
def escMap (c : Char) : Option Char :=
  if c = '"' then some '"'
  else if c = '\\' then some '\\'
  else if c = '/' then some '/'
  else if c = 'b' then some (Char.ofNat 8)
  else if c = 'f' then some (Char.ofNat 12)
  else if c = 'n' then some '\n'
  else if c = 'r' then some (Char.ofNat 13)
  else if c = 't' then some '\t'
  else none

/-- Parse the body of a JSON string, positioned just after the opening quote.
Returns the decoded characters and the input after the closing quote.
Control characters must be escaped and unknown escapes are refused, as in
`json.loads` (surrogate-pair recombination of `\u` escapes is not modelled;
no claim concerns it). -/
def parseStringBody : List Char → Option (List Char × List Char)
  | [] => none
  | '"' :: rest => some ([], rest)
  | '\\' :: 'u' :: a :: b :: c :: d :: rest =>
    if isHexDig a && isHexDig b && isHexDig c && isHexDig d then
      match parseStringBody rest with
      | some (s, r) =>
        some (Char.ofNat (((hexVal a * 16 + hexVal b) * 16 + hexVal c) * 16 + hexVal d) :: s, r)
      | none => none
    else none
  | '\\' :: e :: rest =>
    match escMap e with
    | some c =>
      match parseStringBody rest with
      | some (s, r) => some (c :: s, r)
      | none => none
    | none => none
  | c :: rest =>
    if c.toNat < 32 then none
    else
      match parseStringBody rest with
      | some (s, r) => some (c :: s, r)
      | none => none

/-! ## Numbers

A number lexeme is cut greedily out of the input and then checked against the
JSON number grammar `-?(0|[1-9][0-9]*)(\.[0-9]+)?([eE][+-]?[0-9]+)?`, which is
the grammar `json.loads` matches with its number regex. -/

def isNumCh (c : Char) : Bool :=
  c.isDigit || c = '-' || c = '+' || c = '.' || c = 'e' || c = 'E'

def chompSign (cs : List Char) : List Char :=
  match cs with
  | c :: r => if c = '-' then r else cs
  | [] => []

def chompInt : List Char → Option (List Char)
  | [] => none
  | c :: r =>
    if c = '0' then some r
    else if c.isDigit then some (r.dropWhile Char.isDigit) else none

def chompFrac : List Char → Option (List Char)
  | [] => some []
  | c :: r =>
    if c = '.' then
      match r with
      | d :: _ => if d.isDigit then some (r.dropWhile Char.isDigit) else none
      | [] => none
    else some (c :: r)

def chompExpEnd : List Char → Bool
  | [] => true
  | c :: r =>
    if c = 'e' || c = 'E' then
      let rd := match r with
        | c2 :: r2 => if c2 = '+' || c2 = '-' then r2 else r
        | [] => ([] : List Char)
      !rd.isEmpty && rd.all Char.isDigit
    else false

def numValid (cs : List Char) : Bool :=
  match chompInt (chompSign cs) with
  | none => false
  | some cs2 =>
    match chompFrac cs2 with
    | none => false
    | some cs3 => chompExpEnd cs3

/-- Lex a number at the head of the input. -/
def lexNumber (cs : List Char) : Option (JVal × List Char) :=
  let lx := cs.takeWhile isNumCh
  if numValid lx then some (JVal.num (String.mk lx), cs.dropWhile isNumCh) else none

/-! ## The value / object / array parser -/

/-- Which production `parseCore` is working on: a value, the members of an
object (after `{` and at least one member present), or the items of an array
(after `[` and at least one item present). -/
inductive PMode : Type where
  | val : PMode
  | fieldsAcc (acc : List (String × JVal)) : PMode
  | itemsAcc (acc : List JVal) : PMode

def trueLit : List Char := "true".toList
def falseLit : List Char := "false".toList
def nullLit : List Char := "null".toList
def nanLit : List Char := "NaN".toList
def infLit : List Char := "Infinity".toList
def negInfLit : List Char := "-Infinity".toList

/-- Consume a fixed literal (e.g. `true`), as `json.loads` matches constants. -/
def tryLit (lit : List Char) (v : JVal) (cs : List Char) : Option (JVal × List Char) :=
  if lit.isPrefixOf cs then some (v, cs.drop lit.length) else none

/-- The recursive core of the embedded `json.loads`.  Fuel decreases at each
nested value and at each additional object member / array item; `jsonLoads`
supplies enough fuel for any input.  `json.loads` accepts `NaN`, `Infinity`
and `-Infinity` by default, so they are accepted here too. -/
def parseCore : Nat → PMode → List Char → Option (JVal × List Char)
  | 0, _, _ => none
  | Nat.succ f, PMode.val, cs =>
    match skipWs cs with
    | [] => none
    | c :: rest =>
      if c = '"' then
        match parseStringBody rest with
        | some (s, r) => some (JVal.str (String.mk s), r)
        | none => none
      else if c = lcurly then
        match skipWs rest with
        | [] => none
        | c2 :: r2 =>
          if c2 = rcurly then some (JVal.obj [], r2)
          else parseCore f (PMode.fieldsAcc []) (c2 :: r2)
      else if c = '[' then
        match skipWs rest with
        | [] => none
        | c2 :: r2 =>
          if c2 = ']' then some (JVal.arr [], r2)
          else parseCore f (PMode.itemsAcc []) (c2 :: r2)
      else if c = 't' then tryLit trueLit (JVal.bool true) (c :: rest)
      else if c = 'f' then tryLit falseLit (JVal.bool false) (c :: rest)
      else if c = 'n' then tryLit nullLit JVal.null (c :: rest)
      else if c = 'N' then tryLit nanLit (JVal.num "NaN") (c :: rest)
      else if c = 'I' then tryLit infLit (JVal.num "Infinity") (c :: rest)
      else if c = '-' then
        match rest with
        | c2 :: _ =>
          if c2 = 'I' then tryLit negInfLit (JVal.num "-Infinity") (c :: rest)
          else lexNumber (c :: rest)
        | [] => lexNumber (c :: rest)
      else if c.isDigit then lexNumber (c :: rest)
      else none
  | Nat.succ f, PMode.fieldsAcc acc, cs =>
    match skipWs cs with
    | [] => none
    | c :: rest =>
      if c = '"' then
        match parseStringBody rest with
        | none => none
        | some (k, r2) =>
          match skipWs r2 with
          | [] => none
          | c3 :: r3 =>
            if c3 = ':' then
              match parseCore f PMode.val r3 with
              | none => none
              | some (v, r4) =>
                match skipWs r4 with
                | [] => none
                | c5 :: r5 =>
                  if c5 = ',' then parseCore f (PMode.fieldsAcc (acc ++ [(String.mk k, v)])) r5
                  else if c5 = rcurly then some (JVal.obj (acc ++ [(String.mk k, v)]), r5)
                  else none
            else none
      else none
  | Nat.succ f, PMode.itemsAcc acc, cs =>
    match parseCore f PMode.val cs with
    | none => none
    | some (v, r) =>
      match skipWs r with
      | [] => none
      | c2 :: r2 =>
        if c2 = ',' then parseCore f (PMode.itemsAcc (acc ++ [v])) r2
        else if c2 = ']' then some (JVal.arr (acc ++ [v]), r2)
        else none

/-- Fuel that is always sufficient: the parser spends at most two units of
fuel per character of input. -/
def jsonFuel (cs : List Char) : Nat := 2 * cs.length + 4

/-- The embedded `json.loads`: parse one JSON value and require only
whitespace to follow it, else fail (Python raises `JSONDecodeError`,
embedded as `none`). -/
def jsonLoads (cs : List Char) : Option JVal :=
  match parseCore (jsonFuel cs) PMode.val cs with
  | some (v, r) => if skipWs r = [] then some v else none
  | none => none

/-! ## Python dict access

`json.loads` builds a Python `dict`; with a duplicated key the last binding
wins.  `data.get(k, default)` returns the stored value or the default. -/

/-- Lookup in an association list with Python-dict semantics (last binding of
a repeated key wins). -/
def lookupLast : List (String × JVal) → String → Option JVal
  | [], _ => none
  | p :: rest, k =>
    match lookupLast rest k with
    | some v => some v
    | none => if p.1 = k then some p.2 else none

/-- Python `data.get(k, d)`. -/
def dictGetD (kvs : List (String × JVal)) (k : String) (d : JVal) : JVal :=
  (lookupLast kvs k).getD d

/-- Python `str(...)` of a JSON value, as used by the f-string building the
user turn (line 250).  Strings render as themselves; the pipeline never
renders a container value in practice, so containers get a placeholder and
numbers keep their lexeme. -/
def pyStr : JVal → String
  | JVal.str s => s
  | JVal.num raw => raw
  | JVal.bool true => "True"
  | JVal.bool false => "False"
  | JVal.null => "None"
  | JVal.arr _ => "<list>"
  | JVal.obj _ => "<dict>"

/-! ## Response-text handling (`main`, lines 235-244)

```python
text_resp = response.text.strip()
if text_resp.startswith("```json"):
    text_resp = text_resp[7:]
if text_resp.endswith("```"):
    text_resp = text_resp[:-3]
data = json.loads(text_resp)
```
-/

def fenceOpenL : List Char := "```json".toList
def fenceCloseL : List Char := "```".toList

/-- The two fence-stripping `if`s (lines 236-239), applied to the already
`strip()`ed text. -/
def stripFence (t1 : List Char) : List Char :=
  let t2 := if fenceOpenL.isPrefixOf t1 then t1.drop 7 else t1
  if fenceCloseL.isSuffixOf t2 then dropRightL 3 t2 else t2

/-- Lines 235-241: strip, de-fence and `json.loads` the model response text. -/
def parseResponseText (text : List Char) : Option JVal :=
  jsonLoads (stripFence (stripL text))

/-- A leading/trailing markdown code fence around a serialized JSON text. -/
def fenceWrapL (s : List Char) : List Char :=
  "```json\n".toList ++ s ++ "\n```".toList

/-! ## The retry wrapper (`send_message_with_retry`, lines 91-105)

The outcome of each `chat.send_message` call is an oracle `Nat → Except`
indexed by the attempt number.  A successful call yields a `Resp` whose
`text` field models `response.text` (`none` when the API returns no text). -/

/-- The model response object; `text` is `response.text`. -/
structure Resp where
  text : Option (List Char)

/-- Python `str(e).lower()` (ASCII lowering suffices for the substrings the
code looks for). -/
def pyLower (e : String) : List Char := e.data.map Char.toLower

/-- Boolean substring test, Python's `in` on strings. -/
def isInfixL (sub hay : List Char) : Bool :=
  (List.range (hay.length + 1)).any fun i => sub.isPrefixOf (hay.drop i)

/-- Line 98-99: the quota / rate-limit detector of `send_message_with_retry`. -/
def isQuotaError (e : String) : Bool :=
  let s := pyLower e
  isInfixL "429".toList s || isInfixL "resource".toList s ||
    isInfixL "exhausted".toList s || isInfixL "quota".toList s

/-- What `send_message_with_retry` can do: return a response, raise the last
error, or fall off the end of the `for` loop returning Python's `None`
(possible only with `retries = 0`). -/
inductive RetryOut : Type where
  | ok (r : Resp) : RetryOut
  | raised (e : String) : RetryOut
  | fellThrough : RetryOut

/-- Observable behaviour of one `send_message_with_retry` call: its outcome,
how many `chat.send_message` attempts were made, and the `time.sleep`
durations (seconds, in order). -/
structure RetryTrace where
  out : RetryOut
  attempts : Nat
  sleeps : List Nat

/-- The `for i in range(retries)` loop of lines 93-105, over the remaining
loop indices. -/
def retryLoop (send : Nat → Except String Resp) (retries : Nat) :
    List Nat → RetryTrace
  | [] => ⟨RetryOut.fellThrough, 0, []⟩
  | i :: rest =>
    match send i with
    | Except.ok r => ⟨RetryOut.ok r, 1, []⟩
    | Except.error e =>
      if isQuotaError e && decide (i < retries - 1) then
        let tr := retryLoop send retries rest
        ⟨tr.out, tr.attempts + 1, 2 ^ (i + 1) :: tr.sleeps⟩
      else ⟨RetryOut.raised e, 1, []⟩

/-- `send_message_with_retry(chat, *args, retries=retries)`: the chat handle
and message arguments are fixed for the whole call, so only the per-attempt
outcomes `send` matter to the embedding. -/
def sendMessageWithRetry (send : Nat → Except String Resp) (retries : Nat) :
    RetryTrace :=
  retryLoop send retries (List.range retries)

/-! ## The speech-synthesis adapter (`text_to_audio`, lines 107-120) -/

/-- `text_to_audio`: on any gTTS failure the exception is caught, logged and
`None` is returned; on success the raw MP3 bytes are returned.  The gTTS call
outcome is the oracle argument. -/
def text_to_audio (tts : Except String (List Nat)) : Option (List Nat) :=
  match tts with
  | Except.ok b => some b
  | Except.error _ => none

/-! ## Session state and the turn pipeline (`main`, lines 198-269) -/

/-- The `role` strings used in `st.session_state.history`: `"user"` and
`"model"` (the assistant). -/
inductive Role : Type where
  | user : Role
  | model : Role

/-- One history entry, as appended by the pipeline: a role, a `text` value and
an optional audio byte buffer. -/
structure Turn where
  role : Role
  text : JVal
  audio : Option (List Nat)

/-- The session state the pipeline reads and writes:
`st.session_state.history` and `st.session_state.last_audio_id`. -/
structure AppState where
  history : List Turn
  lastAudioId : Option Int

/-- Oracle outcomes of all external calls during one pipeline invocation. -/
structure Env where
  /-- Whether `st.session_state.client` is set (line 213-214). -/
  hasClient : Bool
  /-- Outcome of `client.files.upload` (line 215): a file handle or a raised
  error. -/
  uploadOutcome : Except String Nat
  /-- Outcome of the `i`-th `chat.send_message` attempt (line 95). -/
  sendOutcomes : Nat → Except String Resp
  /-- Outcome of the `gTTS` synthesis call inside `text_to_audio`. -/
  ttsOutcome : Except String (List Nat)

/-- The exceptions a pipeline invocation can end with; all are caught by the
`except` at line 267 and displayed. -/
inductive PErr : Type where
  | uploadFail (msg : String) : PErr
  | sendFail (msg : String) : PErr
  | respNone : PErr
  | emptyResponse : PErr
  | malformed : PErr
  | notDict : PErr

/-- Observable outcome of one pipeline invocation: the final session state,
the caught exception (if any), whether the temporary WAV file was created and
whether `os.unlink` deleted it, whether the upload ran, and the trace of the
generation call. -/
structure PipelineResult where
  state : AppState
  error : Option PErr
  tmpCreated : Bool
  tmpDeleted : Bool
  uploaded : Bool
  sendCalls : Nat
  sleeps : List Nat

/-- The f-string of line 250. -/
def userTextOf (tr an : JVal) : String :=
  "**Transcription:** " ++ pyStr tr ++ "  \n**Analysis:** " ++ pyStr an

/-- One invocation of the audio-handling block of `main` (lines 198-269) on a
delivered recording `audioBytes`:

* line 198: `if audio_data and audio_data['bytes']` - empty bytes do nothing;
* lines 202-204: fingerprint guard; on new audio the fingerprint is updated
  immediately, before the pipeline body runs;
* lines 208-210: the temporary WAV file is created (`delete=False`);
* line 214: nothing further happens when the client is `None`;
* line 215: upload; a raised error aborts (caught at line 267);
* line 228: generation through `send_message_with_retry` with `retries = 3`;
* lines 232-233: empty/missing `response.text` raises `ValueError`;
* lines 235-241: fence-stripping and `json.loads`; a parse failure raises;
  `data.get` on a non-dict value raises `AttributeError` (`notDict`);
* lines 242-259: extract the three fields with `""` defaults and append the
  user turn then the model turn;
* line 262: `os.unlink` of the temporary file - only on this success path;
* line 265: `st.rerun()` ends the script run (control flow, no state change).
-/
def processAudio (env : Env) (hashFn : List Nat → Int) (audioBytes : List Nat)
    (st0 : AppState) : PipelineResult :=
  if audioBytes = [] then ⟨st0, none, false, false, false, 0, []⟩
  else if st0.lastAudioId = some (hashFn audioBytes) then
    ⟨st0, none, false, false, false, 0, []⟩
  else
    let st1 : AppState := ⟨st0.history, some (hashFn audioBytes)⟩
    if env.hasClient then
      match env.uploadOutcome with
      | Except.error e => ⟨st1, some (PErr.uploadFail e), true, false, false, 0, []⟩
      | Except.ok _ =>
        let tr := sendMessageWithRetry env.sendOutcomes 3
        match tr.out with
        | RetryOut.raised e =>
          ⟨st1, some (PErr.sendFail e), true, false, true, tr.attempts, tr.sleeps⟩
        | RetryOut.fellThrough =>
          ⟨st1, some PErr.respNone, true, false, true, tr.attempts, tr.sleeps⟩
        | RetryOut.ok resp =>
          match resp.text with
          | none => ⟨st1, some PErr.emptyResponse, true, false, true, tr.attempts, tr.sleeps⟩
          | some txt =>
            if txt = [] then
              ⟨st1, some PErr.emptyResponse, true, false, true, tr.attempts, tr.sleeps⟩
            else
              match parseResponseText txt with
              | none => ⟨st1, some PErr.malformed, true, false, true, tr.attempts, tr.sleeps⟩
              | some (JVal.obj kvs) =>
                let utr := dictGetD kvs "transcription" (JVal.str "")
                let uan := dictGetD kvs "analysis" (JVal.str "")
                let rep := dictGetD kvs "response_italian" (JVal.str "")
                let uTurn : Turn := ⟨Role.user, JVal.str (userTextOf utr uan), none⟩
                let mTurn : Turn := ⟨Role.model, rep, text_to_audio env.ttsOutcome⟩
                ⟨⟨st1.history ++ [uTurn, mTurn], st1.lastAudioId⟩, none,
                  true, true, true, tr.attempts, tr.sleeps⟩
              | some _ =>
                ⟨st1, some PErr.notDict, true, false, true, tr.attempts, tr.sleeps⟩
    else ⟨st1, none, true, false, false, 0, []⟩

/-! ## Helper lemmas about whitespace and list surgery -/

theorem skipWs_append_of_ne_nil {cs t : List Char} (h : skipWs cs ≠ []) :
    skipWs (cs ++ t) = skipWs cs ++ t := by
  unfold skipWs at *
  rw [List.dropWhile_append]
  simp [List.isEmpty_iff, h]

theorem skipWs_append_of_nil {cs t : List Char} (h : skipWs cs = []) :
    skipWs (cs ++ t) = skipWs t := by
  unfold skipWs at *
  rw [List.dropWhile_append]
  simp [h]

theorem skipWs_cons_of_ws {c : Char} {cs : List Char} (h : isWs c = true) :
    skipWs (c :: cs) = skipWs cs := by
  simp [skipWs, List.dropWhile_cons, h]

/-- Appending a list whose head fails `p` changes neither the `takeWhile` nor
the kept part of the `dropWhile` decomposition. -/
theorem takeWhile_dropWhile_append_stop {p : Char → Bool} {t : List Char}
    (ht : ∀ c t2, t = c :: t2 → p c = false) (cs : List Char) :
    (cs ++ t).takeWhile p = cs.takeWhile p ∧
      (cs ++ t).dropWhile p = cs.dropWhile p ++ t := by
  induction cs with
  | nil =>
    refine ⟨?_, ?_⟩ <;>
      cases ht2 : t with
      | nil => simp
      | cons c t2 => simp [List.takeWhile_cons, List.dropWhile_cons, ht c t2 ht2]
  | cons c cs ih =>
    by_cases hc : p c
    · simp [List.takeWhile_cons, List.dropWhile_cons, hc, ih.1, ih.2]
    · simp [List.takeWhile_cons, List.dropWhile_cons, hc]

theorem isPrefixOf_append_of {lit cs t : List Char} (h : lit.isPrefixOf cs = true) :
    lit.isPrefixOf (cs ++ t) = true := by
  rw [List.isPrefixOf_iff_prefix] at h ⊢
  exact h.trans (List.prefix_append cs t)

theorem isPrefixOf_length_le {lit cs : List Char} (h : lit.isPrefixOf cs = true) :
    lit.length ≤ cs.length :=
  (List.isPrefixOf_iff_prefix.mp h).length_le

/-! ## Input-extension lemmas for the JSON parser

`json.loads` consumes one value and then requires only whitespace; the
fence-stripping claim (C5) compares a parse of `s` with a parse of
`'\n' :: s ++ ['\n']`, so we show each parsing stage is unaffected by
appending a suffix that cannot extend a number lexeme. -/

theorem tryLit_append (t : List Char) {lit cs : List Char} {v v' : JVal} {r : List Char}
    (h : tryLit lit v cs = some (v', r)) :
    tryLit lit v (cs ++ t) = some (v', r ++ t) := by
  unfold tryLit at *
  by_cases hp : lit.isPrefixOf cs
  · simp only [hp, if_pos, Option.some.injEq, Prod.mk.injEq] at h
    rw [isPrefixOf_append_of hp, if_pos rfl,
      List.drop_append_of_le_length (isPrefixOf_length_le hp)]
    simp [h.1, ← h.2]
  · simp [hp] at h

theorem lexNumber_append {cs t : List Char} {v : JVal} {r : List Char}
    (ht : ∀ c t2, t = c :: t2 → isNumCh c = false)
    (h : lexNumber cs = some (v, r)) :
    lexNumber (cs ++ t) = some (v, r ++ t) := by
  unfold lexNumber at *
  obtain ⟨h1, h2⟩ := takeWhile_dropWhile_append_stop ht cs
  rw [h1, h2]
  by_cases hn : numValid (cs.takeWhile isNumCh)
  · simp only [hn, if_pos, Option.some.injEq, Prod.mk.injEq] at h ⊢
    exact ⟨h.1, by rw [← h.2]⟩
  · simp [hn] at h

theorem parseStringBody_append {t : List Char} :
    ∀ {cs s r}, parseStringBody cs = some (s, r) →
      parseStringBody (cs ++ t) = some (s, r ++ t) := by
  intro cs
  induction cs using parseStringBody.induct with
  | case1 =>
    intro s r h
    simp [parseStringBody] at h
  | case2 rest =>
    intro s r h
    rw [parseStringBody.eq_2] at h
    simp only [Option.some.injEq, Prod.mk.injEq] at h
    rw [List.cons_append, parseStringBody.eq_2]
    simp [← h.1, ← h.2]
  | case3 a b c d rest hhex s0 r0 hsb ih =>
    intro s r h
    rw [parseStringBody.eq_3, if_pos hhex, hsb] at h
    simp only [Option.some.injEq, Prod.mk.injEq] at h
    simp only [List.cons_append]
    rw [parseStringBody.eq_3, if_pos hhex, ih hsb]
    simp [← h.1, ← h.2]
  | case4 a b c d rest hhex hsb ih =>
    intro s r h
    rw [parseStringBody.eq_3, if_pos hhex, hsb] at h
    simp at h
  | case5 a b c d rest hhex =>
    intro s r h
    rw [parseStringBody.eq_3, if_neg hhex] at h
    simp at h
  | case6 e rest hexcl c hesc s0 r0 hsb ih =>
    intro s r h
    rw [parseStringBody.eq_4 e rest hexcl, hesc, hsb] at h
    simp only [Option.some.injEq, Prod.mk.injEq] at h
    have hne : ¬e = 'u' := by
      intro he
      rw [he] at hesc
      simp [escMap] at hesc
    have hexcl2 : ∀ (a b c1 d : Char) (r1 : List Char),
        e = 'u' → rest ++ t = a :: b :: c1 :: d :: r1 → False :=
      fun _ _ _ _ _ he _ => hne he
    simp only [List.cons_append]
    rw [parseStringBody.eq_4 e (rest ++ t) hexcl2, hesc, ih hsb]
    simp [← h.1, ← h.2]
  | case7 e rest hexcl c hesc hsb ih =>
    intro s r h
    rw [parseStringBody.eq_4 e rest hexcl, hesc, hsb] at h
    simp at h
  | case8 e rest hexcl hesc =>
    intro s r h
    rw [parseStringBody.eq_4 e rest hexcl, hesc] at h
    simp at h
  | case9 c rest hq hu hb hctl =>
    intro s r h
    rw [parseStringBody.eq_5 c rest hq hu hb, if_pos hctl] at h
    simp at h
  | case10 c rest hq hu hb hctl s0 r0 hsb ih =>
    intro s r h
    rw [parseStringBody.eq_5 c rest hq hu hb, if_neg hctl, hsb] at h
    simp only [Option.some.injEq, Prod.mk.injEq] at h
    have hcb : ¬c = '\\' := by
      intro hc
      cases hrest : rest with
      | nil => rw [hrest] at hsb; simp [parseStringBody] at hsb
      | cons e r1 => exact hb e r1 hc hrest
    have hu2 : ∀ (a b c1 d : Char) (r1 : List Char),
        c = '\\' → rest ++ t = 'u' :: a :: b :: c1 :: d :: r1 → False :=
      fun _ _ _ _ _ hc _ => hcb hc
    have hb2 : ∀ (e : Char) (r1 : List Char),
        c = '\\' → rest ++ t = e :: r1 → False :=
      fun _ _ hc _ => hcb hc
    simp only [List.cons_append]
    rw [parseStringBody.eq_5 c (rest ++ t) hq hu2 hb2, if_neg hctl, ih hsb]
    simp [← h.1, ← h.2]
  | case11 c rest hq hu hb hctl hsb ih =>
    intro s r h
    rw [parseStringBody.eq_5 c rest hq hu hb, if_neg hctl, hsb] at h
    simp at h

/-- Appending a suffix that cannot extend a number lexeme (and gaining any
extra fuel) preserves a successful parse, the suffix passing through to the
unconsumed remainder. -/
theorem parseCore_ext {t : List Char}
    (ht : ∀ c t2, t = c :: t2 → isNumCh c = false) :
    ∀ f k m cs v r, parseCore f m cs = some (v, r) →
      parseCore (f + k) m (cs ++ t) = some (v, r ++ t) := by
  intro f
  induction f with
  | zero =>
    intro k m cs v r h
    simp [parseCore] at h
  | succ f ih =>
    intro k m cs v r h
    rw [Nat.add_right_comm f 1 k]
    cases m with
    | val =>
      simp only [parseCore] at h ⊢
      cases hskip : skipWs cs with
      | nil => simp only [hskip] at h; exact Option.noConfusion h
      | cons c rest =>
        have hskip2 : skipWs (cs ++ t) = c :: (rest ++ t) := by
          rw [skipWs_append_of_ne_nil (by rw [hskip]; simp), hskip, List.cons_append]
        simp only [hskip] at h
        simp only [hskip2]
        by_cases h1 : c = '"'
        · rw [if_pos h1] at h ⊢
          cases hsb : parseStringBody rest with
          | none => simp only [hsb] at h; exact Option.noConfusion h
          | some p =>
            obtain ⟨s, r2⟩ := p
            simp only [hsb, Option.some.injEq, Prod.mk.injEq] at h
            simp only [parseStringBody_append hsb]
            simp [h.1, ← h.2]
        · rw [if_neg h1] at h ⊢
          by_cases h2 : c = lcurly
          · rw [if_pos h2] at h ⊢
            cases hs3 : skipWs rest with
            | nil => simp only [hs3] at h; exact Option.noConfusion h
            | cons c2 r2 =>
              have hs4 : skipWs (rest ++ t) = c2 :: (r2 ++ t) := by
                rw [skipWs_append_of_ne_nil (by rw [hs3]; simp), hs3, List.cons_append]
              simp only [hs3] at h
              simp only [hs4]
              by_cases h3 : c2 = rcurly
              · rw [if_pos h3] at h ⊢
                simp only [Option.some.injEq, Prod.mk.injEq] at h
                simp [h.1, ← h.2]
              · rw [if_neg h3] at h ⊢
                have := ih k (PMode.fieldsAcc []) (c2 :: r2) v r h
                rwa [List.cons_append] at this
          · rw [if_neg h2] at h ⊢
            by_cases h3 : c = '['
            · rw [if_pos h3] at h ⊢
              cases hs3 : skipWs rest with
              | nil => simp only [hs3] at h; exact Option.noConfusion h
              | cons c2 r2 =>
                have hs4 : skipWs (rest ++ t) = c2 :: (r2 ++ t) := by
                  rw [skipWs_append_of_ne_nil (by rw [hs3]; simp), hs3, List.cons_append]
                simp only [hs3] at h
                simp only [hs4]
                by_cases h4 : c2 = ']'
                · rw [if_pos h4] at h ⊢
                  simp only [Option.some.injEq, Prod.mk.injEq] at h
                  simp [h.1, ← h.2]
                · rw [if_neg h4] at h ⊢
                  have := ih k (PMode.itemsAcc []) (c2 :: r2) v r h
                  rwa [List.cons_append] at this
            · rw [if_neg h3] at h ⊢
              by_cases h4 : c = 't'
              · rw [if_pos h4] at h ⊢
                have := tryLit_append t h
                rwa [List.cons_append] at this
              · rw [if_neg h4] at h ⊢
                by_cases h5 : c = 'f'
                · rw [if_pos h5] at h ⊢
                  have := tryLit_append t h
                  rwa [List.cons_append] at this
                · rw [if_neg h5] at h ⊢
                  by_cases h6 : c = 'n'
                  · rw [if_pos h6] at h ⊢
                    have := tryLit_append t h
                    rwa [List.cons_append] at this
                  · rw [if_neg h6] at h ⊢
                    by_cases h7 : c = 'N'
                    · rw [if_pos h7] at h ⊢
                      have := tryLit_append t h
                      rwa [List.cons_append] at this
                    · rw [if_neg h7] at h ⊢
                      by_cases h8 : c = 'I'
                      · rw [if_pos h8] at h ⊢
                        have := tryLit_append t h
                        rwa [List.cons_append] at this
                      · rw [if_neg h8] at h ⊢
                        by_cases h9 : c = '-'
                        · rw [if_pos h9] at h ⊢
                          cases hrest : rest with
                          | nil =>
                            subst h9
                            simp only [hrest] at h
                            rw [show lexNumber ['-'] = (none : Option (JVal × List Char)) from rfl] at h
                            exact Option.noConfusion h
                          | cons c2 r2 =>
                            simp only [hrest] at h
                            simp only [hrest, List.cons_append]
                            by_cases hI : c2 = 'I'
                            · rw [if_pos hI] at h ⊢
                              have := tryLit_append t h
                              rwa [List.cons_append, List.cons_append] at this
                            · rw [if_neg hI] at h ⊢
                              have := lexNumber_append ht h
                              rwa [List.cons_append, List.cons_append] at this
                        · rw [if_neg h9] at h ⊢
                          by_cases h10 : c.isDigit
                          · rw [if_pos h10] at h ⊢
                            have := lexNumber_append ht h
                            rwa [List.cons_append] at this
                          · rw [if_neg h10] at h
                            exact Option.noConfusion h
    | fieldsAcc acc =>
      simp only [parseCore] at h ⊢
      cases hskip : skipWs cs with
      | nil => simp only [hskip] at h; exact Option.noConfusion h
      | cons c rest =>
        have hskip2 : skipWs (cs ++ t) = c :: (rest ++ t) := by
          rw [skipWs_append_of_ne_nil (by rw [hskip]; simp), hskip, List.cons_append]
        simp only [hskip] at h
        simp only [hskip2]
        by_cases h1 : c = '"'
        · rw [if_pos h1] at h ⊢
          cases hsb : parseStringBody rest with
          | none => simp only [hsb] at h; exact Option.noConfusion h
          | some p =>
            obtain ⟨k0, r2⟩ := p
            simp only [hsb] at h
            simp only [parseStringBody_append hsb]
            cases hs3 : skipWs r2 with
            | nil => simp only [hs3] at h; exact Option.noConfusion h
            | cons c3 r3 =>
              have hs4 : skipWs (r2 ++ t) = c3 :: (r3 ++ t) := by
                rw [skipWs_append_of_ne_nil (by rw [hs3]; simp), hs3, List.cons_append]
              simp only [hs3] at h
              simp only [hs4]
              by_cases h2 : c3 = ':'
              · rw [if_pos h2] at h ⊢
                cases hpc : parseCore f PMode.val r3 with
                | none => simp only [hpc] at h; exact Option.noConfusion h
                | some p2 =>
                  obtain ⟨v4, r4⟩ := p2
                  simp only [hpc] at h
                  simp only [ih k PMode.val r3 v4 r4 hpc]
                  cases hs5 : skipWs r4 with
                  | nil => simp only [hs5] at h; exact Option.noConfusion h
                  | cons c5 r5 =>
                    have hs6 : skipWs (r4 ++ t) = c5 :: (r5 ++ t) := by
                      rw [skipWs_append_of_ne_nil (by rw [hs5]; simp), hs5, List.cons_append]
                    simp only [hs5] at h
                    simp only [hs6]
                    by_cases h3 : c5 = ','
                    · rw [if_pos h3] at h ⊢
                      exact ih k (PMode.fieldsAcc (acc ++ [(String.mk k0, v4)])) r5 v r h
                    · rw [if_neg h3] at h ⊢
                      by_cases h4 : c5 = rcurly
                      · rw [if_pos h4] at h ⊢
                        simp only [Option.some.injEq, Prod.mk.injEq] at h
                        simp [h.1, ← h.2]
                      · rw [if_neg h4] at h
                        exact Option.noConfusion h
              · rw [if_neg h2] at h
                exact Option.noConfusion h
        · rw [if_neg h1] at h
          exact Option.noConfusion h
    | itemsAcc acc =>
      simp only [parseCore] at h ⊢
      cases hpc : parseCore f PMode.val cs with
      | none => simp only [hpc] at h; exact Option.noConfusion h
      | some p =>
        obtain ⟨v2, r2⟩ := p
        simp only [hpc] at h
        simp only [ih k PMode.val cs v2 r2 hpc]
        cases hs3 : skipWs r2 with
        | nil => simp only [hs3] at h; exact Option.noConfusion h
        | cons c3 r3 =>
          have hs4 : skipWs (r2 ++ t) = c3 :: (r3 ++ t) := by
            rw [skipWs_append_of_ne_nil (by rw [hs3]; simp), hs3, List.cons_append]
          simp only [hs3] at h
          simp only [hs4]
          by_cases h2 : c3 = ','
          · rw [if_pos h2] at h ⊢
            exact ih k (PMode.itemsAcc (acc ++ [v2])) r3 v r h
          · rw [if_neg h2] at h ⊢
            by_cases h3 : c3 = ']'
            · rw [if_pos h3] at h ⊢
              simp only [Option.some.injEq, Prod.mk.injEq] at h
              simp [h.1, ← h.2]
            · rw [if_neg h3] at h
              exact Option.noConfusion h

/-! ## Fence-stripping lemmas (for claim C5) -/

theorem parseCore_val_cons_ws {c : Char} (hc : isWs c = true) (f : Nat) (cs : List Char) :
    parseCore f PMode.val (c :: cs) = parseCore f PMode.val cs := by
  cases f with
  | zero => rfl
  | succ f => simp only [parseCore, skipWs_cons_of_ws hc]

/-- Wrapping a parseable text in single newlines does not change `json.loads`. -/
theorem jsonLoads_wrap_newlines {s : List Char} {v : JVal} (h : jsonLoads s = some v) :
    jsonLoads ('\n' :: (s ++ ['\n'])) = some v := by
  unfold jsonLoads at *
  cases hpc : parseCore (jsonFuel s) PMode.val s with
  | none => rw [hpc] at h; exact Option.noConfusion h
  | some p =>
    obtain ⟨v2, r⟩ := p
    simp only [hpc] at h
    by_cases hws : skipWs r = []
    · rw [if_pos hws] at h
      have hnt : ∀ c t2, (['\n'] : List Char) = c :: t2 → isNumCh c = false := by
        intro c t2 hh
        cases hh
        decide
      have hext := parseCore_ext hnt (jsonFuel s) 4 PMode.val s v2 r hpc
      have hfuel : jsonFuel ('\n' :: (s ++ ['\n'])) = jsonFuel s + 4 := by
        simp [jsonFuel, List.length_cons, List.length_append]
        omega
      have hcons : parseCore (jsonFuel s + 4) PMode.val ('\n' :: (s ++ ['\n'])) =
          some (v2, r ++ ['\n']) := by
        rw [parseCore_val_cons_ws (by decide), hext]
      simp only [hfuel, hcons]
      rw [if_pos (by rw [skipWs_append_of_nil hws]; rfl)]
      exact h
    · rw [if_neg hws] at h
      exact Option.noConfusion h

theorem stripL_eq_self {cs : List Char}
    (h1 : ∀ c, cs.head? = some c → isWs c = false)
    (h2 : ∀ c, cs.getLast? = some c → isWs c = false) : stripL cs = cs := by
  unfold stripL
  have e1 : cs.dropWhile isWs = cs := by
    cases cs with
    | nil => rfl
    | cons c cs' => simp [List.dropWhile_cons, h1 c rfl]
  rw [e1]
  have e2 : cs.reverse.dropWhile isWs = cs.reverse := by
    cases hrev : cs.reverse with
    | nil => rfl
    | cons c cs' =>
      have hc : cs.getLast? = some c := by rw [← List.head?_reverse, hrev]; rfl
      simp [List.dropWhile_cons, h2 c hc]
  rw [e2, List.reverse_reverse]

theorem isPrefixOf_cons_ne {a b : Char} {as bs : List Char} (h : (a == b) = false) :
    (a :: as).isPrefixOf (b :: bs) = false := by
  simp [List.isPrefixOf, h]

theorem fenceOpen_not_prefixOf {s : List Char} (h : s.head? = some lcurly) :
    fenceOpenL.isPrefixOf s = false := by
  cases s with
  | nil => simp at h
  | cons c s' =>
    have hc : c = lcurly := by simpa using h
    subst hc
    have hf : fenceOpenL = btick :: "``json".toList := by decide
    rw [hf]
    exact isPrefixOf_cons_ne (by decide)

theorem fenceClose_not_suffixOf {s : List Char} (h : s.getLast? = some rcurly) :
    fenceCloseL.isSuffixOf s = false := by
  unfold List.isSuffixOf
  cases hrev : s.reverse with
  | nil =>
    have hnil : s = [] := by simpa using congrArg List.reverse hrev
    rw [hnil] at h
    simp at h
  | cons c w =>
    have hc : c = rcurly := by
      have hr := List.head?_reverse s
      rw [hrev, h] at hr
      simpa using hr
    subst hc
    have hf : fenceCloseL.reverse = btick :: "``".toList := by decide
    rw [hf]
    exact isPrefixOf_cons_ne (by decide)

theorem isPrefixOf_self_append (l X : List Char) : l.isPrefixOf (l ++ X) = true := by
  rw [List.isPrefixOf_iff_prefix]
  exact List.prefix_append l X

theorem fenceClose_suffixOf_append (Y : List Char) :
    fenceCloseL.isSuffixOf (Y ++ fenceCloseL) = true := by
  rw [List.isSuffixOf_iff_suffix]
  exact List.suffix_append Y fenceCloseL

/-- An unfenced JSON-object text passes the fence-stripping untouched. -/
theorem parseResponse_plain {s : List Char} {v : JVal} (h : jsonLoads s = some v)
    (hh : s.head? = some lcurly) (hl : s.getLast? = some rcurly) :
    parseResponseText s = some v := by
  unfold parseResponseText
  have hstrip : stripL s = s := stripL_eq_self
    (fun c hc => by rw [hh] at hc; injection hc with h2; rw [← h2]; decide)
    (fun c hc => by rw [hl] at hc; injection hc with h2; rw [← h2]; decide)
  rw [hstrip]
  unfold stripFence
  simp only [fenceOpen_not_prefixOf hh, fenceClose_not_suffixOf hl,
    Bool.false_eq_true, if_false]
  exact h

/-- A fenced JSON-object text is de-fenced and parses to the same value. -/
theorem parseResponse_fenced {s : List Char} {v : JVal} (h : jsonLoads s = some v) :
    parseResponseText (fenceWrapL s) = some v := by
  unfold parseResponseText fenceWrapL
  have e1 : "```json\n".toList = fenceOpenL ++ ['\n'] := by decide
  have e2 : "\n```".toList = '\n' :: fenceCloseL := by decide
  rw [e1, e2]
  have hW : (fenceOpenL ++ ['\n']) ++ s ++ ('\n' :: fenceCloseL) =
      fenceOpenL ++ (('\n' :: (s ++ ['\n'])) ++ fenceCloseL) := by
    simp
  rw [hW]
  have hhead : (fenceOpenL ++ (('\n' :: (s ++ ['\n'])) ++ fenceCloseL)).head? = some btick := by
    have : fenceOpenL = btick :: "``json".toList := by decide
    rw [this]
    rfl
  have hlast : (fenceOpenL ++ (('\n' :: (s ++ ['\n'])) ++ fenceCloseL)).getLast? = some btick := by
    rw [List.getLast?_append, List.getLast?_append]
    have : fenceCloseL.getLast? = some btick := by decide
    rw [this]
    rfl
  have hstrip : stripL (fenceOpenL ++ (('\n' :: (s ++ ['\n'])) ++ fenceCloseL)) =
      fenceOpenL ++ (('\n' :: (s ++ ['\n'])) ++ fenceCloseL) := stripL_eq_self
    (fun c hc => by rw [hhead] at hc; injection hc with h2; rw [← h2]; decide)
    (fun c hc => by rw [hlast] at hc; injection hc with h2; rw [← h2]; decide)
  rw [hstrip]
  unfold stripFence
  rw [isPrefixOf_self_append]
  simp only [if_true]
  have hdrop : List.drop 7 (fenceOpenL ++ (('\n' :: (s ++ ['\n'])) ++ fenceCloseL)) =
      ('\n' :: (s ++ ['\n'])) ++ fenceCloseL := List.drop_left fenceOpenL _
  rw [hdrop]
  rw [fenceClose_suffixOf_append]
  simp only [if_true]
  have htake : dropRightL 3 (('\n' :: (s ++ ['\n'])) ++ fenceCloseL) =
      '\n' :: (s ++ ['\n']) := by
    unfold dropRightL
    have hlen : (('\n' :: (s ++ ['\n'])) ++ fenceCloseL).length - 3 =
        ('\n' :: (s ++ ['\n'])).length := by
      have : fenceCloseL.length = 3 := by decide
      simp [List.length_append, this]
    rw [hlen]
    exact List.take_left _ _
  rw [htake]
  exact jsonLoads_wrap_newlines h

/-! ## Pipeline helper lemmas -/

theorem dictGetD_of_absent {kvs : List (String × JVal)} {k : String} {d : JVal}
    (h : lookupLast kvs k = none) : dictGetD kvs k d = d := by
  unfold dictGetD
  rw [h]
  rfl

/-- An invocation on a delivered (non-empty) recording always leaves the
fingerprint equal to the input's hash, whichever path it takes. -/
theorem fingerprint_after (env : Env) (hashFn : List Nat → Int) (bytes : List Nat)
    (st0 : AppState) (hb : bytes ≠ []) :
    (processAudio env hashFn bytes st0).state.lastAudioId = some (hashFn bytes) := by
  unfold processAudio
  rw [if_neg hb]
  split
  · next h => exact h
  · split
    · split
      · rfl
      · dsimp only
        split <;> (try rfl)
        split <;> (try rfl)
        split <;> (try rfl)
        split <;> rfl
    · rfl

theorem processAudio_empty_bytes (env : Env) (hashFn : List Nat → Int) (st : AppState) :
    processAudio env hashFn [] st = ⟨st, none, false, false, false, 0, []⟩ := by
  unfold processAudio
  rw [if_pos rfl]

theorem processAudio_dedup (env : Env) (hashFn : List Nat → Int) (bytes : List Nat)
    (st : AppState) (h : st.lastAudioId = some (hashFn bytes)) :
    processAudio env hashFn bytes st = ⟨st, none, false, false, false, 0, []⟩ := by
  unfold processAudio
  by_cases hb : bytes = []
  · rw [if_pos hb]
  · rw [if_neg hb, if_pos h]

/-- Re-delivering the same bytes right after any invocation is a no-op. -/
theorem second_submission_noop (env1 env2 : Env) (hashFn : List Nat → Int)
    (bytes : List Nat) (st0 : AppState) :
    processAudio env2 hashFn bytes (processAudio env1 hashFn bytes st0).state =
      ⟨(processAudio env1 hashFn bytes st0).state, none, false, false, false, 0, []⟩ := by
  by_cases hb : bytes = []
  · subst hb
    exact processAudio_empty_bytes env2 hashFn _
  · exact processAudio_dedup env2 hashFn bytes _ (fingerprint_after env1 hashFn bytes st0 hb)

/-! ## The claims -/

/-- **C1.**  For every invocation of the turn pipeline on new (non-duplicate,
non-empty) audio in an initialized session: if the invocation succeeds (no
exception), History grows by exactly two turns, a user turn first and an
assistant (`model`) turn second; if it fails fatally at any step (upload,
generation, empty response, JSON parsing), History is unchanged - no partial
turn is appended. -/
theorem C1_success_appends_two_failure_appends_none (env : Env)
    (hashFn : List Nat → Int) (bytes : List Nat) (st0 : AppState) (hb : bytes ≠ [])
    (hnew : st0.lastAudioId ≠ some (hashFn bytes)) (hc : env.hasClient = true) :
    ((processAudio env hashFn bytes st0).error = none →
      ∃ u m, (processAudio env hashFn bytes st0).state.history = st0.history ++ [u, m] ∧
        u.role = Role.user ∧ m.role = Role.model) ∧
    (∀ e, (processAudio env hashFn bytes st0).error = some e →
      (processAudio env hashFn bytes st0).state.history = st0.history) := by
  unfold processAudio
  rw [if_neg hb, if_neg hnew, hc, if_pos rfl]
  split
  · exact ⟨fun habs => Option.noConfusion habs, fun e2 _ => rfl⟩
  · dsimp only
    split
    · exact ⟨fun habs => Option.noConfusion habs, fun e2 _ => rfl⟩
    · exact ⟨fun habs => Option.noConfusion habs, fun e2 _ => rfl⟩
    · split
      · exact ⟨fun habs => Option.noConfusion habs, fun e2 _ => rfl⟩
      · split
        · exact ⟨fun habs => Option.noConfusion habs, fun e2 _ => rfl⟩
        · split
          · exact ⟨fun habs => Option.noConfusion habs, fun e2 _ => rfl⟩
          · next kvs heq =>
            refine ⟨fun _ => ?_, fun e2 habs => Option.noConfusion habs⟩
            exact ⟨_, _, rfl, rfl, rfl⟩
          · exact ⟨fun habs => Option.noConfusion habs, fun e2 _ => rfl⟩

/-- Witness for C1: a concrete successful invocation producing exactly the
user and assistant turns. -/
theorem C1_success_appends_two_failure_appends_none_witness :
    (([1] : List Nat) ≠ []) ∧
    ((⟨[], none⟩ : AppState).lastAudioId ≠ some 7) ∧
    ((processAudio ⟨true, Except.ok 1,
        fun _ => Except.ok ⟨some ("\x7b\"response_italian\": \"Ciao\"\x7d".toList)⟩,
        Except.ok [9]⟩ (fun _ => 7) [1] ⟨[], none⟩).error = none →
      ∃ u m, (processAudio ⟨true, Except.ok 1,
        fun _ => Except.ok ⟨some ("\x7b\"response_italian\": \"Ciao\"\x7d".toList)⟩,
        Except.ok [9]⟩ (fun _ => 7) [1] ⟨[], none⟩).state.history = [] ++ [u, m] ∧
        u.role = Role.user ∧ m.role = Role.model) ∧
    (∀ e, (processAudio ⟨true, Except.ok 1,
        fun _ => Except.ok ⟨some ("\x7b\"response_italian\": \"Ciao\"\x7d".toList)⟩,
        Except.ok [9]⟩ (fun _ => 7) [1] ⟨[], none⟩).error = some e →
      (processAudio ⟨true, Except.ok 1,
        fun _ => Except.ok ⟨some ("\x7b\"response_italian\": \"Ciao\"\x7d".toList)⟩,
        Except.ok [9]⟩ (fun _ => 7) [1] ⟨[], none⟩).state.history = []) :=
  ⟨by decide, by decide,
    C1_success_appends_two_failure_appends_none _ _ _ _ (by decide) (by decide) rfl⟩

/-- **C2.**  Submitting the same fingerprinted bytes twice in a row triggers
the pipeline at most once: immediately after any invocation on bytes `A`, a
second delivery of `A` (whose hash equals the stored fingerprint) is a no-op:
no temporary file, no upload, no generation attempt, no history or state
change, no error. -/
theorem C2_duplicate_submission_noop (env1 env2 : Env) (hashFn : List Nat → Int)
    (bytes : List Nat) (st0 : AppState) :
    (processAudio env2 hashFn bytes (processAudio env1 hashFn bytes st0).state).state =
        (processAudio env1 hashFn bytes st0).state ∧
    (processAudio env2 hashFn bytes (processAudio env1 hashFn bytes st0).state).uploaded = false ∧
    (processAudio env2 hashFn bytes (processAudio env1 hashFn bytes st0).state).sendCalls = 0 ∧
    (processAudio env2 hashFn bytes (processAudio env1 hashFn bytes st0).state).tmpCreated = false ∧
    (processAudio env2 hashFn bytes (processAudio env1 hashFn bytes st0).state).error = none := by
  rw [second_submission_noop env1 env2 hashFn bytes st0]
  exact ⟨rfl, rfl, rfl, rfl, rfl⟩

/-- **C3.**  When every attempt fails with a quota-exhaustion signal,
`send_message_with_retry` makes exactly 3 attempts, sleeps 2 seconds after
the first failure and 4 seconds after the second, and then raises the last
error: no 4th attempt and no 8-second sleep. -/
theorem C3_quota_exhaustion_three_attempts (send : Nat → Except String Resp)
    (h : ∀ i, i < 3 → ∃ e, send i = Except.error e ∧ isQuotaError e = true) :
    (sendMessageWithRetry send 3).attempts = 3 ∧
    (sendMessageWithRetry send 3).sleeps = [2, 4] ∧
    ∃ e, (sendMessageWithRetry send 3).out = RetryOut.raised e ∧
      send 2 = Except.error e := by
  obtain ⟨e0, h0, q0⟩ := h 0 (by omega)
  obtain ⟨e1, h1, q1⟩ := h 1 (by omega)
  obtain ⟨e2, h2, q2⟩ := h 2 (by omega)
  unfold sendMessageWithRetry
  rw [show List.range 3 = [0, 1, 2] from rfl]
  refine ⟨?_, ?_, e2, ?_, h2⟩ <;>
    simp [retryLoop, h0, h1, h2, q0, q1, q2]

/-- Witness for C3: three concrete quota failures. -/
theorem C3_quota_exhaustion_three_attempts_witness :
    (∀ i, i < 3 → ∃ e, (fun _ => Except.error "429 quota exceeded" :
        Nat → Except String Resp) i = Except.error e ∧ isQuotaError e = true) ∧
    ((sendMessageWithRetry (fun _ => Except.error "429 quota exceeded") 3).attempts = 3 ∧
     (sendMessageWithRetry (fun _ => Except.error "429 quota exceeded") 3).sleeps = [2, 4] ∧
     ∃ e, (sendMessageWithRetry (fun _ => Except.error "429 quota exceeded") 3).out =
        RetryOut.raised e ∧
        (fun _ => Except.error "429 quota exceeded" : Nat → Except String Resp) 2 =
          Except.error e) :=
  ⟨fun _ _ => ⟨"429 quota exceeded", rfl, by decide⟩,
    C3_quota_exhaustion_three_attempts _
      (fun _ _ => ⟨"429 quota exceeded", rfl, by decide⟩)⟩

/-- **C4.**  A non-quota error on any attempt propagates immediately: the
wrapper raises it with no further attempt and no additional backoff sleep
(the only sleeps are those of the earlier quota failures). -/
theorem C4_nonquota_error_propagates_immediately (send : Nat → Except String Resp)
    (k : Nat) (e : String) (hk : k < 3)
    (hq : ∀ i, i < k → ∃ e2, send i = Except.error e2 ∧ isQuotaError e2 = true)
    (he : send k = Except.error e) (hnq : isQuotaError e = false) :
    (sendMessageWithRetry send 3).out = RetryOut.raised e ∧
    (sendMessageWithRetry send 3).attempts = k + 1 ∧
    (sendMessageWithRetry send 3).sleeps.length = k := by
  unfold sendMessageWithRetry
  rw [show List.range 3 = [0, 1, 2] from rfl]
  interval_cases k
  · refine ⟨?_, ?_, ?_⟩ <;> simp [retryLoop, he, hnq]
  · obtain ⟨e0, h0, q0⟩ := hq 0 (by omega)
    refine ⟨?_, ?_, ?_⟩ <;> simp [retryLoop, h0, q0, he, hnq]
  · obtain ⟨e0, h0, q0⟩ := hq 0 (by omega)
    obtain ⟨e1, h1, q1⟩ := hq 1 (by omega)
    refine ⟨?_, ?_, ?_⟩ <;> simp [retryLoop, h0, q0, h1, q1, he, hnq]

/-- Witness for C4: a quota failure followed by a non-quota failure; the
second error propagates after exactly two attempts and one sleep. -/
theorem C4_nonquota_error_propagates_immediately_witness :
    (1 < 3) ∧ isQuotaError "boom" = false ∧
    ((sendMessageWithRetry (fun i => if i = 0 then Except.error "429 first" else
        Except.error "boom") 3).out = RetryOut.raised "boom" ∧
     (sendMessageWithRetry (fun i => if i = 0 then Except.error "429 first" else
        Except.error "boom") 3).attempts = 1 + 1 ∧
     (sendMessageWithRetry (fun i => if i = 0 then Except.error "429 first" else
        Except.error "boom") 3).sleeps.length = 1) :=
  ⟨by omega, by decide,
    C4_nonquota_error_propagates_immediately _ 1 "boom" (by omega)
      (fun i hi => ⟨"429 first", by interval_cases i; rfl, by decide⟩)
      rfl (by decide)⟩

/-- **C5.**  For every JSON object text `s` (it parses under `json.loads`,
starts with `{` and ends with `}`), the pipeline's response parsing of `s`
wrapped in a leading/trailing markdown code fence yields exactly the same
parsed object - hence the same `(transcription, analysis, response_italian)`
triple - as parsing the unwrapped `s`. -/
theorem C5_fence_wrapped_parses_identically (s : List Char) (v : JVal)
    (h : jsonLoads s = some v) (hh : s.head? = some lcurly)
    (hl : s.getLast? = some rcurly) :
    parseResponseText (fenceWrapL s) = some v ∧ parseResponseText s = some v :=
  ⟨parseResponse_fenced h, parseResponse_plain h hh hl⟩

/-- Witness for C5 on a concrete JSON object. -/
theorem C5_fence_wrapped_parses_identically_witness :
    jsonLoads ("\x7b\"response_italian\": \"Ciao\"\x7d".toList) =
        some (JVal.obj [("response_italian", JVal.str "Ciao")]) ∧
    ("\x7b\"response_italian\": \"Ciao\"\x7d".toList).head? = some lcurly ∧
    ("\x7b\"response_italian\": \"Ciao\"\x7d".toList).getLast? = some rcurly ∧
    (parseResponseText (fenceWrapL ("\x7b\"response_italian\": \"Ciao\"\x7d".toList)) =
        some (JVal.obj [("response_italian", JVal.str "Ciao")]) ∧
     parseResponseText ("\x7b\"response_italian\": \"Ciao\"\x7d".toList) =
        some (JVal.obj [("response_italian", JVal.str "Ciao")])) :=
  ⟨rfl, rfl, rfl, C5_fence_wrapped_parses_identically _ _ rfl rfl rfl⟩

/-- **C6.**  If the model returns no text (`None` or the empty string), the
pipeline fails with the empty-response error before any parsing or appending,
and History is unchanged. -/
theorem C6_empty_response_fails_history_unchanged (env : Env)
    (hashFn : List Nat → Int) (bytes : List Nat) (st0 : AppState) (resp : Resp)
    (fid : Nat) (hb : bytes ≠ []) (hnew : st0.lastAudioId ≠ some (hashFn bytes))
    (hc : env.hasClient = true) (hup : env.uploadOutcome = Except.ok fid)
    (hsend : (sendMessageWithRetry env.sendOutcomes 3).out = RetryOut.ok resp)
    (hempty : resp.text = none ∨ resp.text = some []) :
    (processAudio env hashFn bytes st0).error = some PErr.emptyResponse ∧
    (processAudio env hashFn bytes st0).state.history = st0.history := by
  unfold processAudio
  rw [if_neg hb, if_neg hnew, hc, if_pos rfl]
  simp only [hup]
  rcases hempty with h0 | h0 <;> simp [hsend, h0]

/-- Witness for C6: a concrete invocation whose model response text is empty. -/
theorem C6_empty_response_fails_history_unchanged_witness :
    ((sendMessageWithRetry (fun _ => Except.ok (⟨some []⟩ : Resp)) 3).out =
        RetryOut.ok ⟨some []⟩) ∧
    ((processAudio ⟨true, Except.ok 1, fun _ => Except.ok (⟨some []⟩ : Resp),
        Except.error "tts down"⟩ (fun _ => 7) [1] ⟨[], none⟩).error =
        some PErr.emptyResponse ∧
     (processAudio ⟨true, Except.ok 1, fun _ => Except.ok (⟨some []⟩ : Resp),
        Except.error "tts down"⟩ (fun _ => 7) [1] ⟨[], none⟩).state.history = []) :=
  ⟨rfl, C6_empty_response_fails_history_unchanged _ _ _ _ ⟨some []⟩ 1
    (by decide) (by decide) rfl rfl rfl (Or.inr rfl)⟩

/-- Characterisation of a fully successful pipeline run (shared by C7, C8). -/
theorem processAudio_success_eq (env : Env) (hashFn : List Nat → Int)
    (bytes : List Nat) (st0 : AppState) (resp : Resp) (fid : Nat)
    (txt : List Char) (kvs : List (String × JVal))
    (hb : bytes ≠ []) (hnew : st0.lastAudioId ≠ some (hashFn bytes))
    (hc : env.hasClient = true) (hup : env.uploadOutcome = Except.ok fid)
    (hsend : (sendMessageWithRetry env.sendOutcomes 3).out = RetryOut.ok resp)
    (htext : resp.text = some txt) (hne : txt ≠ [])
    (hparse : parseResponseText txt = some (JVal.obj kvs)) :
    processAudio env hashFn bytes st0 =
      ⟨⟨st0.history ++
        [⟨Role.user, JVal.str (userTextOf (dictGetD kvs "transcription" (JVal.str ""))
            (dictGetD kvs "analysis" (JVal.str ""))), none⟩,
         ⟨Role.model, dictGetD kvs "response_italian" (JVal.str ""),
            text_to_audio env.ttsOutcome⟩],
        some (hashFn bytes)⟩, none, true, true, true,
        (sendMessageWithRetry env.sendOutcomes 3).attempts,
        (sendMessageWithRetry env.sendOutcomes 3).sleeps⟩ := by
  unfold processAudio
  rw [if_neg hb, if_neg hnew, hc, if_pos rfl]
  simp only [hup]
  simp only [hsend, htext]
  rw [if_neg hne]
  simp only [hparse]

/-- **C7.**  For every successfully parsed JSON response object, each of the
three keys that is missing defaults to the empty string rather than raising,
and the two turns are still appended using those defaults. -/
theorem C7_missing_keys_default_to_empty (env : Env) (hashFn : List Nat → Int)
    (bytes : List Nat) (st0 : AppState) (resp : Resp) (fid : Nat)
    (txt : List Char) (kvs : List (String × JVal))
    (hb : bytes ≠ []) (hnew : st0.lastAudioId ≠ some (hashFn bytes))
    (hc : env.hasClient = true) (hup : env.uploadOutcome = Except.ok fid)
    (hsend : (sendMessageWithRetry env.sendOutcomes 3).out = RetryOut.ok resp)
    (htext : resp.text = some txt) (hne : txt ≠ [])
    (hparse : parseResponseText txt = some (JVal.obj kvs)) :
    (processAudio env hashFn bytes st0).error = none ∧
    (processAudio env hashFn bytes st0).state.history = st0.history ++
      [⟨Role.user, JVal.str (userTextOf (dictGetD kvs "transcription" (JVal.str ""))
          (dictGetD kvs "analysis" (JVal.str ""))), none⟩,
       ⟨Role.model, dictGetD kvs "response_italian" (JVal.str ""),
          text_to_audio env.ttsOutcome⟩] ∧
    (lookupLast kvs "transcription" = none →
      dictGetD kvs "transcription" (JVal.str "") = JVal.str "") ∧
    (lookupLast kvs "analysis" = none →
      dictGetD kvs "analysis" (JVal.str "") = JVal.str "") ∧
    (lookupLast kvs "response_italian" = none →
      dictGetD kvs "response_italian" (JVal.str "") = JVal.str "") := by
  rw [processAudio_success_eq env hashFn bytes st0 resp fid txt kvs
    hb hnew hc hup hsend htext hne hparse]
  exact ⟨rfl, rfl, fun h => dictGetD_of_absent h, fun h => dictGetD_of_absent h,
    fun h => dictGetD_of_absent h⟩

/-- Witness for C7: the model answers `{}`; all three keys are missing, both
turns are still appended with empty-string defaults. -/
theorem C7_missing_keys_default_to_empty_witness :
    ((sendMessageWithRetry (fun _ => Except.ok (⟨some ("\x7b\x7d".toList)⟩ : Resp)) 3).out =
        RetryOut.ok ⟨some ("\x7b\x7d".toList)⟩) ∧
    (parseResponseText ("\x7b\x7d".toList) = some (JVal.obj [])) ∧
    ((processAudio ⟨true, Except.ok 1, fun _ => Except.ok (⟨some ("\x7b\x7d".toList)⟩ : Resp),
        Except.ok [5]⟩ (fun _ => 7) [1] ⟨[], none⟩).error = none ∧
     (processAudio ⟨true, Except.ok 1, fun _ => Except.ok (⟨some ("\x7b\x7d".toList)⟩ : Resp),
        Except.ok [5]⟩ (fun _ => 7) [1] ⟨[], none⟩).state.history = [] ++
      [⟨Role.user, JVal.str (userTextOf (dictGetD [] "transcription" (JVal.str ""))
          (dictGetD [] "analysis" (JVal.str ""))), none⟩,
       ⟨Role.model, dictGetD [] "response_italian" (JVal.str ""),
          text_to_audio (Except.ok [5])⟩] ∧
     (lookupLast [] "transcription" = none →
       dictGetD [] "transcription" (JVal.str "") = JVal.str "") ∧
     (lookupLast [] "analysis" = none →
       dictGetD [] "analysis" (JVal.str "") = JVal.str "") ∧
     (lookupLast [] "response_italian" = none →
       dictGetD [] "response_italian" (JVal.str "") = JVal.str "")) :=
  ⟨rfl, rfl, C7_missing_keys_default_to_empty _ _ _ _ ⟨some ("\x7b\x7d".toList)⟩ 1
    ("\x7b\x7d".toList) [] (by decide) (by decide) rfl rfl rfl rfl (by decide) rfl⟩

/-- **C8.**  For a valid (non-empty) reply text, a speech-synthesis failure is
non-fatal: `text_to_audio` returns `None` and the pipeline still appends the
assistant turn with its text set to the reply and its audio absent. -/
theorem C8_synthesis_failure_still_appends_assistant_turn (env : Env)
    (hashFn : List Nat → Int) (bytes : List Nat) (st0 : AppState) (resp : Resp)
    (fid : Nat) (txt : List Char) (kvs : List (String × JVal)) (e : String)
    (hb : bytes ≠ []) (hnew : st0.lastAudioId ≠ some (hashFn bytes))
    (hc : env.hasClient = true) (hup : env.uploadOutcome = Except.ok fid)
    (hsend : (sendMessageWithRetry env.sendOutcomes 3).out = RetryOut.ok resp)
    (htext : resp.text = some txt) (hne : txt ≠ [])
    (hparse : parseResponseText txt = some (JVal.obj kvs))
    (hrep : dictGetD kvs "response_italian" (JVal.str "") ≠ JVal.str "")
    (htts : env.ttsOutcome = Except.error e) :
    text_to_audio env.ttsOutcome = none ∧
    (processAudio env hashFn bytes st0).error = none ∧
    (processAudio env hashFn bytes st0).state.history = st0.history ++
      [⟨Role.user, JVal.str (userTextOf (dictGetD kvs "transcription" (JVal.str ""))
          (dictGetD kvs "analysis" (JVal.str ""))), none⟩,
       ⟨Role.model, dictGetD kvs "response_italian" (JVal.str ""), none⟩] := by
  have hta : text_to_audio env.ttsOutcome = none := by rw [htts]; rfl
  rw [processAudio_success_eq env hashFn bytes st0 resp fid txt kvs
    hb hnew hc hup hsend htext hne hparse, hta]
  exact ⟨rfl, rfl, rfl⟩

/-- Witness for C8: gTTS fails while the reply is `"Ciao"`; the assistant turn
is appended with text `"Ciao"` and no audio. -/
theorem C8_synthesis_failure_still_appends_assistant_turn_witness :
    ((sendMessageWithRetry (fun _ => Except.ok
        (⟨some ("\x7b\"response_italian\": \"Ciao\"\x7d".toList)⟩ : Resp)) 3).out =
        RetryOut.ok ⟨some ("\x7b\"response_italian\": \"Ciao\"\x7d".toList)⟩) ∧
    (parseResponseText ("\x7b\"response_italian\": \"Ciao\"\x7d".toList) =
        some (JVal.obj [("response_italian", JVal.str "Ciao")])) ∧
    (dictGetD [("response_italian", JVal.str "Ciao")] "response_italian" (JVal.str "") ≠
        JVal.str "") ∧
    (text_to_audio (⟨true, Except.ok 1, fun _ => Except.ok
          (⟨some ("\x7b\"response_italian\": \"Ciao\"\x7d".toList)⟩ : Resp),
          Except.error "tts down"⟩ : Env).ttsOutcome = none ∧
     (processAudio ⟨true, Except.ok 1, fun _ => Except.ok
          (⟨some ("\x7b\"response_italian\": \"Ciao\"\x7d".toList)⟩ : Resp),
          Except.error "tts down"⟩ (fun _ => 7) [1] ⟨[], none⟩).error = none ∧
     (processAudio ⟨true, Except.ok 1, fun _ => Except.ok
          (⟨some ("\x7b\"response_italian\": \"Ciao\"\x7d".toList)⟩ : Resp),
          Except.error "tts down"⟩ (fun _ => 7) [1] ⟨[], none⟩).state.history = [] ++
      [⟨Role.user, JVal.str (userTextOf
          (dictGetD [("response_italian", JVal.str "Ciao")] "transcription" (JVal.str ""))
          (dictGetD [("response_italian", JVal.str "Ciao")] "analysis" (JVal.str ""))), none⟩,
       ⟨Role.model, dictGetD [("response_italian", JVal.str "Ciao")] "response_italian"
          (JVal.str ""), none⟩]) :=
  ⟨rfl, rfl, fun hcon => by simp [dictGetD, lookupLast] at hcon,
    C8_synthesis_failure_still_appends_assistant_turn _ _ _ _
      ⟨some ("\x7b\"response_italian\": \"Ciao\"\x7d".toList)⟩ 1
      ("\x7b\"response_italian\": \"Ciao\"\x7d".toList)
      [("response_italian", JVal.str "Ciao")] "tts down"
      (by decide) (by decide) rfl rfl rfl rfl (by decide) rfl
      (fun hcon => by simp [dictGetD, lookupLast] at hcon) rfl⟩

/-- **C9** (code bug).  The claim says the temporary WAV file is deleted after
upload on both the success and every failure path.  The code calls
`os.unlink` (line 262) only at the end of the success path, inside the
`try`; on a failure - here a concrete failed upload - the `except` at line
267 runs without deleting, so the created file survives the invocation. -/
theorem C9_tempfile_not_deleted_on_failure :
    (processAudio ⟨true, Except.error "network down",
        fun _ => Except.ok (⟨some []⟩ : Resp), Except.error "tts down"⟩
        (fun _ => 7) [1] ⟨[], none⟩).tmpCreated = true ∧
    (processAudio ⟨true, Except.error "network down",
        fun _ => Except.ok (⟨some []⟩ : Resp), Except.error "tts down"⟩
        (fun _ => 7) [1] ⟨[], none⟩).tmpDeleted = false ∧
    (processAudio ⟨true, Except.error "network down",
        fun _ => Except.ok (⟨some []⟩ : Resp), Except.error "tts down"⟩
        (fun _ => 7) [1] ⟨[], none⟩).error = some (PErr.uploadFail "network down") :=
  ⟨rfl, rfl, rfl⟩

/-- **C10.**  The fingerprint is updated before the pipeline body runs: after
an invocation on new audio that fails fatally, the stored fingerprint already
equals the failed input's hash, so an immediate resubmission of the identical
bytes is deduplicated into a no-op instead of retrying the turn. -/
theorem C10_fingerprint_updated_before_body (env1 env2 : Env)
    (hashFn : List Nat → Int) (bytes : List Nat) (st0 : AppState)
    (hb : bytes ≠ []) (hnew : st0.lastAudioId ≠ some (hashFn bytes))
    (hfail : (processAudio env1 hashFn bytes st0).error.isSome = true) :
    (processAudio env1 hashFn bytes st0).state.lastAudioId = some (hashFn bytes) ∧
    processAudio env2 hashFn bytes (processAudio env1 hashFn bytes st0).state =
      ⟨(processAudio env1 hashFn bytes st0).state, none, false, false, false, 0, []⟩ :=
  ⟨fingerprint_after env1 hashFn bytes st0 hb,
    second_submission_noop env1 env2 hashFn bytes st0⟩

/-- Witness for C10: a failed upload, then the identical bytes resubmitted. -/
theorem C10_fingerprint_updated_before_body_witness :
    ((processAudio ⟨true, Except.error "network down",
        fun _ => Except.ok (⟨some []⟩ : Resp), Except.error "tts down"⟩
        (fun _ => 7) [1] ⟨[], none⟩).error.isSome = true) ∧
    ((processAudio ⟨true, Except.error "network down",
        fun _ => Except.ok (⟨some []⟩ : Resp), Except.error "tts down"⟩
        (fun _ => 7) [1] ⟨[], none⟩).state.lastAudioId = some 7 ∧
     processAudio ⟨true, Except.ok 1, fun _ => Except.ok (⟨some []⟩ : Resp),
        Except.ok [5]⟩ (fun _ => 7) [1]
        (processAudio ⟨true, Except.error "network down",
          fun _ => Except.ok (⟨some []⟩ : Resp), Except.error "tts down"⟩
          (fun _ => 7) [1] ⟨[], none⟩).state =
      ⟨(processAudio ⟨true, Except.error "network down",
          fun _ => Except.ok (⟨some []⟩ : Resp), Except.error "tts down"⟩
          (fun _ => 7) [1] ⟨[], none⟩).state, none, false, false, false, 0, []⟩) :=
  ⟨rfl, C10_fingerprint_updated_before_body _ _ _ _ _
    (by decide) (by decide) rfl⟩

end ItalianChat
